import Mathlib

/-!
Verification development for the shield-app repository: a date-range
dashboard built from a calendar range picker (`Calendar.tsx`), a TTL data
cache (`useDataCache.ts`), a dashboard fetch orchestrator
(`DataDashboard.tsx` with `services/api.ts`) and a filterable/sortable
data table (`EnhancedDataTable.tsx`).

The definitions below are shallow embeddings of the TypeScript source:
JavaScript numbers that hold integral timestamps, day counts or ids are
modelled as `Int`/`Nat`; JavaScript objects used as string-keyed maps are
modelled as functions `String → Option _`; fallible asynchronous calls
are modelled by passing the outcome as an `Except` value.
-/

namespace ShieldApp

/-! ## Calendar dates and the month grid (`Calendar.tsx`) -/

/-- A calendar date as constructed by `new Date(year, month, day)` inside
`generateCalendarGrid` (`month` 0-based, `day` 1-based).  All dates built
by the grid are local midnights, so the civil triple determines them. -/
structure CDate where
  year : Int
  month : Nat
  day : Nat
deriving DecidableEq

/-- Gregorian leap-year rule, as implemented by the JavaScript `Date`
object that `new Date(year, month + 1, 0).getDate()` consults. -/
def isLeapYear (y : Int) : Bool :=
  (y.emod 4 == 0 && y.emod 100 != 0) || y.emod 400 == 0

/-- `daysInMonth` of a 0-based month: the source's
`new Date(currentYear, currentMonth + 1, 0).getDate()`. -/
def daysInMonth (year : Int) (month : Nat) : Nat :=
  if month = 1 then (if isLeapYear year then 29 else 28)
  else if month = 3 ∨ month = 5 ∨ month = 8 ∨ month = 10 then 30
  else 31

/-- Days elapsed since 1970-01-01 for the civil date `y-m-d` (`m` 1-based),
the standard era-based civil-calendar computation that underlies the
JavaScript `Date` epoch arithmetic. -/
def daysFromCivil (y m d : Int) : Int :=
  let yAdj := if m ≤ 2 then y - 1 else y
  let era := Int.fdiv yAdj 400
  let yoe := yAdj - era * 400
  let mp := if 2 < m then m - 3 else m + 9
  let doy := Int.fdiv (153 * mp + 2) 5 + d - 1
  let doe := yoe * 365 + Int.fdiv yoe 4 - Int.fdiv yoe 100 + doy
  era * 146097 + doe - 719468

/-- Day of week (0 = Sunday) of the first of the month: the source's
`new Date(currentYear, currentMonth, 1).getDay()` (1970-01-01 was a
Thursday, day-of-week 4). -/
def startingDayOfWeek (year : Int) (month : Nat) : Nat :=
  ((daysFromCivil year ((month : Int) + 1) 1 + 4).emod 7).toNat

/-- Inner loop of `generateCalendarGrid`: one pass of
`for (let dayOfWeek = 0; dayOfWeek < 7; dayOfWeek++)` over the remaining
day-of-week slots `dows`, threading the mutable `day` counter.  A cell is
empty (`none`) before the first of the month in week 0 and after the last
day of the month; otherwise it holds `new Date(year, month, day)` and the
counter advances. -/
def weekCells (year : Int) (month : Nat) (week startDow dim : Nat) :
    Nat → List Nat → List (Option CDate) × Nat
  | day, [] => ([], day)
  | day, dw :: rest =>
    if week = 0 ∧ dw < startDow then
      let r := weekCells year month week startDow dim day rest
      (none :: r.1, r.2)
    else if dim < day then
      let r := weekCells year month week startDow dim day rest
      (none :: r.1, r.2)
    else
      let r := weekCells year month week startDow dim (day + 1) rest
      (some ⟨year, month, day⟩ :: r.1, r.2)

/-- Outer loop of `generateCalendarGrid`:
`for (let week = 0; week < 6; week++)` with the early
`if (day > daysInMonth) break;` placed after the row is pushed.  `fuel`
is the number of loop iterations still permitted (6 at the start). -/
def gridRows (year : Int) (month : Nat) (startDow dim : Nat) :
    Nat → Nat → Nat → List (List (Option CDate))
  | 0, _, _ => []
  | fuel + 1, week, day =>
    let r := weekCells year month week startDow dim day [0, 1, 2, 3, 4, 5, 6]
    if dim < r.2 then [r.1]
    else r.1 :: gridRows year month startDow dim fuel (week + 1) r.2

/-- `generateCalendarGrid` from `Calendar.tsx`: builds the month grid for
`(currentYear, currentMonth)` starting from `day = 1` and `week = 0`. -/
def generateCalendarGrid (year : Int) (month : Nat) : List (List (Option CDate)) :=
  gridRows year month (startingDayOfWeek year month) (daysInMonth year month) 6 0 1

/-- Day-number mirror of `weekCells` (cells hold the day of month instead
of the full date); used to decide grid properties for each of the finitely
many `(startDow, daysInMonth)` combinations. -/
def weekCellsNat (week startDow dim : Nat) :
    Nat → List Nat → List (Option Nat) × Nat
  | day, [] => ([], day)
  | day, dw :: rest =>
    if week = 0 ∧ dw < startDow then
      let r := weekCellsNat week startDow dim day rest
      (none :: r.1, r.2)
    else if dim < day then
      let r := weekCellsNat week startDow dim day rest
      (none :: r.1, r.2)
    else
      let r := weekCellsNat week startDow dim (day + 1) rest
      (some day :: r.1, r.2)

/-- Day-number mirror of `gridRows`. -/
def gridRowsNat (startDow dim : Nat) : Nat → Nat → Nat → List (List (Option Nat))
  | 0, _, _ => []
  | fuel + 1, week, day =>
    let r := weekCellsNat week startDow dim day [0, 1, 2, 3, 4, 5, 6]
    if dim < r.2 then [r.1]
    else r.1 :: gridRowsNat startDow dim fuel (week + 1) r.2

/-- Day-number mirror of `generateCalendarGrid`. -/
def gridNat (startDow dim : Nat) : List (List (Option Nat)) :=
  gridRowsNat startDow dim 6 0 1

lemma weekCells_eq_nat (year : Int) (month : Nat) (week startDow dim : Nat) :
    ∀ (dows : List Nat) (day : Nat),
      weekCells year month week startDow dim day dows =
        (((weekCellsNat week startDow dim day dows).1.map
            (Option.map fun d => (⟨year, month, d⟩ : CDate))),
          (weekCellsNat week startDow dim day dows).2) := by
  intro dows
  induction dows with
  | nil => intro day; simp [weekCells, weekCellsNat]
  | cons dw rest ih =>
    intro day
    simp only [weekCells, weekCellsNat]
    split_ifs <;> simp [ih]

lemma gridRows_eq_nat (year : Int) (month : Nat) (startDow dim : Nat) :
    ∀ (fuel week day : Nat),
      gridRows year month startDow dim fuel week day =
        (gridRowsNat startDow dim fuel week day).map
          (List.map (Option.map fun d => (⟨year, month, d⟩ : CDate))) := by
  intro fuel
  induction fuel with
  | zero => intro week day; simp [gridRows, gridRowsNat]
  | succ n ih =>
    intro week day
    simp only [gridRows, gridRowsNat, weekCells_eq_nat]
    split_ifs <;> simp [ih]

lemma generateCalendarGrid_eq_nat (year : Int) (month : Nat) :
    generateCalendarGrid year month =
      (gridNat (startingDayOfWeek year month) (daysInMonth year month)).map
        (List.map (Option.map fun d => (⟨year, month, d⟩ : CDate))) := by
  simp [generateCalendarGrid, gridNat, gridRows_eq_nat]

/-- Bool-level check of the grid shape for one `(startDow, dim)` pair:
row count equals `⌈(startDow + dim) / 7⌉` and lies between 4 and 6, every
row has 7 cells, each day 1..dim occupies exactly one cell, and every
non-empty cell holds a day in 1..dim. -/
def gridCheck (s dim : Nat) : Bool :=
  let g := gridNat s dim
  (g.length == (s + dim + 6) / 7) &&
  (4 ≤ g.length && g.length ≤ 6 : Bool) &&
  g.all (fun row => row.length == 7) &&
  ((List.range (dim + 1)).all fun d => d == 0 || g.flatten.count (some d) == 1) &&
  g.flatten.all (fun c => match c with
    | none => true
    | some d => decide (0 < d) && decide (d ≤ dim))

lemma gridCheck_holds : ∀ s < 7, ∀ dim < 32, 28 ≤ dim → gridCheck s dim = true := by
  decide

lemma startingDayOfWeek_lt (year : Int) (month : Nat) :
    startingDayOfWeek year month < 7 := by
  unfold startingDayOfWeek
  set t : Int := daysFromCivil year ((month : Int) + 1) 1 + 4 with ht
  have h1 : t.emod 7 < 7 := Int.emod_lt_of_pos t (by norm_num)
  have h0 : 0 ≤ t.emod 7 := Int.emod_nonneg t (by norm_num)
  omega

lemma daysInMonth_bounds (year : Int) (month : Nat) :
    28 ≤ daysInMonth year month ∧ daysInMonth year month ≤ 31 := by
  unfold daysInMonth
  split_ifs <;> omega

lemma count_map_inj {α β : Type} [BEq α] [BEq β] [LawfulBEq α] [LawfulBEq β]
    (f : α → β) (hf : ∀ x y, f x = f y → x = y) (a : α) :
    ∀ l : List α, (l.map f).count (f a) = l.count a := by
  intro l
  induction l with
  | nil => simp
  | cons x xs ih =>
    have hbeq : (f x == f a) = (x == a) := by
      by_cases h : x = a
      · subst h; simp
      · have hne : f x ≠ f a := fun hc => h (hf _ _ hc)
        simp [h, hne]
    simp only [List.map_cons, List.count_cons, ih, hbeq]

lemma gridNat_spec (s dim : Nat) (hs : s < 7) (h1 : 28 ≤ dim) (h2 : dim ≤ 31) :
    (gridNat s dim).length = (s + dim + 6) / 7 ∧
    (4 ≤ (gridNat s dim).length ∧ (gridNat s dim).length ≤ 6) ∧
    (∀ row ∈ gridNat s dim, row.length = 7) ∧
    (∀ d : Nat, 0 < d → d ≤ dim → (gridNat s dim).flatten.count (some d) = 1) ∧
    (∀ c ∈ (gridNat s dim).flatten, ∀ d : Nat, c = some d → 0 < d ∧ d ≤ dim) := by
  have hchk := gridCheck_holds s hs dim (by omega) h1
  unfold gridCheck at hchk
  simp only [Bool.and_eq_true, beq_iff_eq, List.all_eq_true, decide_eq_true_eq,
    List.mem_range, Bool.or_eq_true] at hchk
  obtain ⟨⟨⟨⟨hlen, hb⟩, hrow⟩, hcount⟩, hcell⟩ := hchk
  refine ⟨hlen, hb, hrow, ?_, ?_⟩
  · intro d hd1 hd2
    rcases hcount d (by omega) with h | h
    · omega
    · exact h
  · intro c hc d hcd
    have := hcell c hc
    subst hcd
    simpa using this

/-- C1 (corrected): for every `(year, month)`, `generateCalendarGrid`
returns `⌈(startingDayOfWeek + daysInMonth) / 7⌉` rows — between 4 and 6,
not always 6, because of the `if (day > daysInMonth) break;` after each
pushed week — each of exactly 7 cells; every calendar day of the month
appears in exactly one non-empty cell, every non-empty cell holds such a
day, and all remaining cells hold the empty marker `none`. -/
theorem generateCalendarGrid_shape (year : Int) (month : Nat) :
    (generateCalendarGrid year month).length
        = (startingDayOfWeek year month + daysInMonth year month + 6) / 7 ∧
    (4 ≤ (generateCalendarGrid year month).length ∧
      (generateCalendarGrid year month).length ≤ 6) ∧
    (∀ row ∈ generateCalendarGrid year month, row.length = 7) ∧
    (∀ d : Nat, 0 < d → d ≤ daysInMonth year month →
      (generateCalendarGrid year month).flatten.count
        (some (⟨year, month, d⟩ : CDate)) = 1) ∧
    (∀ c ∈ (generateCalendarGrid year month).flatten, ∀ dt : CDate,
      c = some dt → dt.year = year ∧ dt.month = month ∧
        0 < dt.day ∧ dt.day ≤ daysInMonth year month) := by
  obtain ⟨h1, h2, h3, h4, h5⟩ := gridNat_spec (startingDayOfWeek year month)
    (daysInMonth year month) (startingDayOfWeek_lt year month)
    (daysInMonth_bounds year month).1 (daysInMonth_bounds year month).2
  have hinj : Function.Injective (fun d : Nat => (⟨year, month, d⟩ : CDate)) := by
    intro a b hab
    simpa using hab
  have hoinj :
      Function.Injective (Option.map fun d : Nat => (⟨year, month, d⟩ : CDate)) :=
    Option.map_injective hinj
  rw [generateCalendarGrid_eq_nat]
  refine ⟨by simpa using h1, by simpa using h2, ?_, ?_, ?_⟩
  · intro row hrow
    rcases List.mem_map.mp hrow with ⟨row0, hr0, rfl⟩
    simpa using h3 row0 hr0
  · intro d hd1 hd2
    rw [← List.map_flatten]
    have hc := count_map_inj (f := Option.map fun d : Nat => (⟨year, month, d⟩ : CDate))
      (fun x y h => hoinj h) (some d)
      ((gridNat (startingDayOfWeek year month) (daysInMonth year month)).flatten)
    exact hc.trans (h4 d hd1 hd2)
  · intro c hc dt hcd
    rw [← List.map_flatten] at hc
    rcases List.mem_map.mp hc with ⟨c0, hc0, rfl⟩
    cases c0 with
    | none => simp at hcd
    | some d =>
      obtain ⟨hd1, hd2⟩ := h5 (some d) hc0 d rfl
      have hdt : dt = ⟨year, month, d⟩ := by simpa using hcd.symm
      subst hdt
      exact ⟨rfl, rfl, hd1, hd2⟩

/-- C1 counterexample: February 2026 (28 days, starting on a Sunday)
yields a grid of 4 rows, not the 6 rows / 42 cells the claim states. -/
theorem generateCalendarGrid_feb2026_four_rows :
    (generateCalendarGrid 2026 1).length = 4 ∧
    (generateCalendarGrid 2026 1).length ≠ 6 := by
  decide

/-- Closed instance of `generateCalendarGrid_shape` at April 2025, day 1. -/
theorem generateCalendarGrid_shape_witness :
    0 < 1 ∧ 1 ≤ daysInMonth 2025 3 ∧
    (generateCalendarGrid 2025 3).flatten.count
      (some (⟨2025, 3, 1⟩ : CDate)) = 1 :=
  ⟨by decide, by decide,
    (generateCalendarGrid_shape 2025 3).2.2.2.1 1 (by decide) (by decide)⟩

/-! ## Disabled dates (`isDateDisabled` in `Calendar.tsx`)

Timestamps are modelled as integral milliseconds since the epoch; the
grid dates passed to `isDateDisabled` are local midnights. -/

/-- One entry of the `DATE_MESSAGES` table. -/
structure DateMessage where
  message : String
  disabled : Bool

/-- Milliseconds per day. -/
def msPerDay : Int := 86400000

/-- `MAX_PAST_DAYS` constant from `Calendar.tsx`. -/
def MAX_PAST_DAYS : Int := 90

/-- The calendar-day index of a timestamp: stands for the key string
`format(date, 'yyyy-MM-dd')` used to index `DATE_MESSAGES`. -/
def dayKey (ts : Int) : Int := Int.fdiv ts msPerDay

/-- `isDateDisabled` from `Calendar.tsx`: the date is disabled when its
`DATE_MESSAGES` entry (if any) is flagged `disabled`, or when the date is
strictly before `minAllowedDate`, which is the current instant moved back
`MAX_PAST_DAYS` calendar days (`setDate(getDate() - MAX_PAST_DAYS)`,
which keeps the time of day). -/
def isDateDisabled (messages : Int → Option DateMessage) (date now : Int) : Bool :=
  (match messages (dayKey date) with
   | some m => m.disabled
   | none => false) ||
  decide (date < now - MAX_PAST_DAYS * msPerDay)

/-- C5: `isDateDisabled` is true exactly when the date is flagged
disabled in the blocked map or lies strictly before `now` minus
`MAX_PAST_DAYS` days; a date exactly `MAX_PAST_DAYS` days in the past
that is not flagged is allowed. -/
theorem isDateDisabled_iff (messages : Int → Option DateMessage) (date now : Int) :
    (isDateDisabled messages date now = true ↔
      (∃ dm, messages (dayKey date) = some dm ∧ dm.disabled = true) ∨
        date < now - MAX_PAST_DAYS * msPerDay) ∧
    ((messages (dayKey date) = none ∨
        (∃ dm, messages (dayKey date) = some dm ∧ dm.disabled = false)) →
      date = now - MAX_PAST_DAYS * msPerDay →
      isDateDisabled messages date now = false) := by
  constructor
  · unfold isDateDisabled
    rcases h : messages (dayKey date) with _ | dm
    · simp [h]
    · cases hd : dm.disabled <;> simp [h, hd]
  · intro hflag heq
    unfold isDateDisabled
    have hlt : ¬(date < now - MAX_PAST_DAYS * msPerDay) := by omega
    rcases hflag with h | ⟨dm, h, hd⟩
    · simp [h, hlt]
    · simp [h, hd, hlt]

/-- Closed instance of `isDateDisabled_iff`: with no flagged dates, a date
exactly 90 days in the past is not disabled. -/
theorem isDateDisabled_iff_witness :
    ((fun _ : Int => (none : Option DateMessage)) (dayKey (-(90 * 86400000))) = none ∨
      (∃ dm, (fun _ : Int => (none : Option DateMessage)) (dayKey (-(90 * 86400000)))
          = some dm ∧ dm.disabled = false)) ∧
    (-(90 * 86400000) : Int) = 0 - MAX_PAST_DAYS * msPerDay ∧
    isDateDisabled (fun _ => none) (-(90 * 86400000)) 0 = false :=
  ⟨Or.inl rfl, by decide,
    (isDateDisabled_iff (fun _ => none) (-(90 * 86400000)) 0).2 (Or.inl rfl) (by decide)⟩

/-! ## The two-click selection state machine (`handleDateClick`)

Dates in the selection machine are modelled as integral day counts: every
date flowing through `handleDateClick` is a grid cell, i.e. a local
midnight, so a day count determines it, `isAfter` is `<` on day counts,
`differenceInDays` is subtraction and `isSameDay` is equality. -/

/-- The Calendar component's `selectionState`. -/
structure SelectionState where
  startDate : Option Int
  endDate : Option Int
  selecting : Bool
deriving DecidableEq

/-- `handleDateClick` from `Calendar.tsx`.  `disabled` is the
`isDateDisabled` closure over the component's ambient blocked map and
current time; `maxRange` is the `maxSelectionRangeInDays` prop.  Returns
the new `selectionState` together with the `onSelection` payload
(`some (start, end)` exactly when the callback is invoked, which happens
at most once per click). -/
def handleDateClick (disabled : Int → Bool) (maxRange : Int)
    (st : SelectionState) (date : Int) : SelectionState × Option (Int × Int) :=
  if disabled date then (st, none)
  else
    match st.startDate, st.endDate with
    | none, _ =>
        ({ startDate := some date, endDate := none, selecting := true }, none)
    | some _, some _ =>
        ({ startDate := some date, endDate := none, selecting := true }, none)
    | some s, none =>
        let lo := if s < date then s else date
        let hi := if s < date then date else s
        let daysDiff := hi - lo
        if maxRange ≠ 0 ∧ maxRange < daysDiff then (st, none)
        else ({ startDate := some lo, endDate := some hi, selecting := false },
          some (lo, hi))

/-- C2 (amended): provided `maxSelectionRangeInDays` is nonzero — the
guard first tests the configured maximum for truthiness — selecting a
non-disabled date `d` from `Anchored(s)` stays anchored without invoking
`onSelection` when the span exceeds the maximum, and otherwise commits
`(min s d, max s d)` and invokes `onSelection` exactly once. -/
theorem handleDateClick_anchored (disabled : Int → Bool) (maxRange : Int)
    (st : SelectionState) (s d : Int) (hmax : maxRange ≠ 0)
    (hstart : st.startDate = some s) (hend : st.endDate = none)
    (hdis : disabled d = false) :
    (maxRange < max s d - min s d →
      handleDateClick disabled maxRange st d = (st, none)) ∧
    (max s d - min s d ≤ maxRange →
      handleDateClick disabled maxRange st d =
        ({ startDate := some (min s d), endDate := some (max s d),
            selecting := false }, some (min s d, max s d))) := by
  have hlo : (if s < d then s else d) = min s d := by
    rcases lt_or_ge s d with h | h
    · simp [h, min_eq_left h.le]
    · simp [not_lt.mpr h, min_eq_right h]
  have hhi : (if s < d then d else s) = max s d := by
    rcases lt_or_ge s d with h | h
    · simp [h, max_eq_right h.le]
    · simp [not_lt.mpr h, max_eq_left h]
  constructor
  · intro hspan
    unfold handleDateClick
    rw [hdis, hstart, hend]
    simp only [hlo, hhi]
    rw [if_neg (by simp), if_pos ⟨hmax, hspan⟩]
  · intro hspan
    unfold handleDateClick
    rw [hdis, hstart, hend]
    simp only [hlo, hhi]
    rw [if_neg (by simp), if_neg (by omega)]

/-- Closed instance of `handleDateClick_anchored`: anchored at day 5 with
the default maximum 10, clicking day 20 (15-day span) is rejected. -/
theorem handleDateClick_anchored_witness :
    (10 : Int) ≠ 0 ∧
    (SelectionState.mk (some 5) none true).startDate = some 5 ∧
    (SelectionState.mk (some 5) none true).endDate = none ∧
    (fun _ : Int => false) 20 = false ∧
    (10 : Int) < max 5 20 - min 5 20 ∧
    handleDateClick (fun _ => false) 10 (SelectionState.mk (some 5) none true) 20 =
      (SelectionState.mk (some 5) none true, none) :=
  ⟨by decide, rfl, rfl, rfl, by decide,
    (handleDateClick_anchored (fun _ => false) 10
        (SelectionState.mk (some 5) none true) 5 20
        (by decide) rfl rfl rfl).1 (by decide)⟩

/-- C2 counterexample: with `maxSelectionRangeInDays = 0` the span guard
is bypassed.  Anchored at day 0, clicking day 5 gives a 5-day span, which
exceeds the configured maximum 0, yet the state commits to `[0, 5]` and
`onSelection` is invoked — the state does not stay anchored. -/
theorem handleDateClick_span_guard_bypassed :
    (0 : Int) < 5 - 0 ∧
    handleDateClick (fun _ => false) 0 (SelectionState.mk (some 0) none true) 5 =
      (SelectionState.mk (some 0) (some 5) false, some (0, 5)) ∧
    handleDateClick (fun _ => false) 0 (SelectionState.mk (some 0) none true) 5 ≠
      (SelectionState.mk (some 0) none true, none) := by
  refine ⟨by decide, ?_, ?_⟩ <;> decide

/-- The `start <= end` invariant on a selection state. -/
def SelInv (st : SelectionState) : Prop :=
  ∀ a b, st.startDate = some a → st.endDate = some b → a ≤ b

/-- C3: every `handleDateClick` transition preserves the invariant that a
fully selected range has `start <= end` (the commit branch swaps the two
clicks when needed); in particular clicking day 12 and then day 5 commits
the range `[5, 12]`, never `[12, 5]`. -/
theorem handleDateClick_start_le_end :
    (∀ (disabled : Int → Bool) (maxRange : Int) (st : SelectionState) (d : Int),
      SelInv st → SelInv (handleDateClick disabled maxRange st d).1) ∧
    handleDateClick (fun _ => false) 10
        ((handleDateClick (fun _ => false) 10
          (SelectionState.mk none none false) 12).1) 5 =
      (SelectionState.mk (some 5) (some 12) false, some (5, 12)) := by
  constructor
  · intro disabled maxRange st d hinv
    unfold handleDateClick
    split_ifs with h
    · exact hinv
    · rcases hs : st.startDate with _ | s <;> rcases he : st.endDate with _ | e
      · simp only [hs, he]
        intro a b _ hb
        simp at hb
      · simp only [hs, he]
        intro a b _ hb
        simp at hb
      · simp only [hs, he]
        rcases lt_or_ge s d with hsd | hsd
        · simp only [if_pos hsd]
          split_ifs with hguard
          · exact hinv
          · intro a b ha hb
            simp only [Option.some.injEq] at ha hb
            omega
        · simp only [if_neg (not_lt.mpr hsd)]
          split_ifs with hguard
          · exact hinv
          · intro a b ha hb
            simp only [Option.some.injEq] at ha hb
            omega
      · simp only [hs, he]
        intro a b _ hb
        simp at hb
  · decide

/-- Closed instance of the preservation half of
`handleDateClick_start_le_end`, starting from the anchored state at
day 3 (whose invariant holds vacuously). -/
theorem handleDateClick_start_le_end_witness :
    SelInv (SelectionState.mk (some 3) none true) ∧
    SelInv ((handleDateClick (fun _ => false) 10
      (SelectionState.mk (some 3) none true) 8).1) :=
  have h : SelInv (SelectionState.mk (some 3) none true) := by
    intro a b _ hb
    simp at hb
  ⟨h, (handleDateClick_start_le_end.1 (fun _ => false) 10
    (SelectionState.mk (some 3) none true) 8 h)⟩

/-- C10: with `maxSelectionRangeInDays = 0` the guard
`if (maxSelectionRangeInDays && daysDiff > maxSelectionRangeInDays)` is
skipped, so from any anchored state a click on a non-disabled date always
commits the (swapped) range and invokes `onSelection`, whatever the span. -/
theorem handleDateClick_max_zero_commits (disabled : Int → Bool)
    (st : SelectionState) (s d : Int)
    (hstart : st.startDate = some s) (hend : st.endDate = none)
    (hdis : disabled d = false) :
    handleDateClick disabled 0 st d =
      ({ startDate := some (min s d), endDate := some (max s d),
          selecting := false }, some (min s d, max s d)) := by
  have hlo : (if s < d then s else d) = min s d := by
    rcases lt_or_ge s d with h | h
    · simp [h, min_eq_left h.le]
    · simp [not_lt.mpr h, min_eq_right h]
  have hhi : (if s < d then d else s) = max s d := by
    rcases lt_or_ge s d with h | h
    · simp [h, max_eq_right h.le]
    · simp [not_lt.mpr h, max_eq_left h]
  unfold handleDateClick
  rw [hdis, hstart, hend]
  simp only [hlo, hhi]
  rw [if_neg (by simp), if_neg (by simp)]

/-- Closed instance of `handleDateClick_max_zero_commits`: a 1000-day span
commits when the configured maximum is 0. -/
theorem handleDateClick_max_zero_commits_witness :
    (SelectionState.mk (some 0) none true).startDate = some 0 ∧
    (SelectionState.mk (some 0) none true).endDate = none ∧
    (fun _ : Int => false) 1000 = false ∧
    handleDateClick (fun _ => false) 0 (SelectionState.mk (some 0) none true) 1000 =
      (SelectionState.mk (some (min 0 1000)) (some (max 0 1000)) false,
        some (min 0 1000, max 0 1000)) :=
  ⟨rfl, rfl, rfl,
    handleDateClick_max_zero_commits (fun _ => false)
      (SelectionState.mk (some 0) none true) 0 1000 rfl rfl rfl⟩

/-! ## Range-edge styling (`isRangeEdge` in `Calendar.tsx`) -/

/-- The `'start' | 'end'` result values of `isRangeEdge`. -/
inductive RangeEdge where
  | startEdge
  | endEdge
deriving DecidableEq

/-- `isRangeEdge` from `Calendar.tsx`: compares calendar-day equality
(`isSameDay`, equality on day counts) of the probed date against the
selection start first — returning immediately — and only otherwise
against the selection end. -/
def isRangeEdge (st : SelectionState) (date : Int) : Option RangeEdge :=
  match st.startDate with
  | none => none
  | some s =>
    if date = s then some .startEdge
    else
      match st.endDate with
      | some e => if date = e then some .endEdge else none
      | none => none

/-- C8 (amended): for a zero-span range whose start and end are the same
calendar day, `isRangeEdge` reports that date as the start edge only —
the start check precedes and shadows the end check, so the date is never
reported as the end edge. -/
theorem isRangeEdge_zero_span (st : SelectionState) (s : Int)
    (hstart : st.startDate = some s) (hend : st.endDate = some s) :
    isRangeEdge st s = some RangeEdge.startEdge ∧
    isRangeEdge st s ≠ some RangeEdge.endEdge := by
  unfold isRangeEdge
  rw [hstart]
  simp

/-- Closed instance of `isRangeEdge_zero_span` at the range `[5, 5]`. -/
theorem isRangeEdge_zero_span_witness :
    (SelectionState.mk (some 5) (some 5) false).startDate = some 5 ∧
    (SelectionState.mk (some 5) (some 5) false).endDate = some 5 ∧
    isRangeEdge (SelectionState.mk (some 5) (some 5) false) 5 =
        some RangeEdge.startEdge ∧
    isRangeEdge (SelectionState.mk (some 5) (some 5) false) 5 ≠
        some RangeEdge.endEdge :=
  ⟨rfl, rfl,
    (isRangeEdge_zero_span (SelectionState.mk (some 5) (some 5) false) 5 rfl rfl).1,
    (isRangeEdge_zero_span (SelectionState.mk (some 5) (some 5) false) 5 rfl rfl).2⟩

/-- C8 counterexample: with the committed zero-span range `[5, 5]`, the
date 5 equals both the start and the end, yet `isRangeEdge` returns
`'start'` and not `'end'` — it is not simultaneously both edges. -/
theorem isRangeEdge_zero_span_not_both :
    isRangeEdge (SelectionState.mk (some 5) (some 5) false) 5 =
        some RangeEdge.startEdge ∧
    ¬(isRangeEdge (SelectionState.mk (some 5) (some 5) false) 5 =
        some RangeEdge.endEdge) := by
  decide

/-! ## The TTL cache (`useDataCache.ts`) -/

/-- `CacheItem<T>` from `types.ts`. -/
structure CacheItem (T : Type) where
  data : T
  timestamp : Int
  expiry : Int
deriving DecidableEq

/-- `DEFAULT_CACHE_EXPIRY` (30 minutes in milliseconds). -/
def DEFAULT_CACHE_EXPIRY : Int := 30 * 60 * 1000

/-- The hook's cache state: the JavaScript object
`Record<string, CacheItem<T>>` as a string-keyed map. -/
def CacheStore (T : Type) : Type := String → Option (CacheItem T)

/-- `setCachedData`: stores `{data, timestamp: now, expiry: now + expiryTime}`
under `key` via the spread `{...prevCache, [key]: cacheItem}`, overwriting
any previous entry for `key` and keeping all others. -/
def setCachedData {T : Type} (c : CacheStore T) (key : String) (data : T)
    (now expiryTime : Int) : CacheStore T :=
  fun k => if k = key then some ⟨data, now, now + expiryTime⟩ else c k

/-- `getCachedData`: a pure read — `null` when no entry exists or
`Date.now() > cacheItem.expiry`, the stored data otherwise.  It never
calls `setCache`, so the store is untouched. -/
def getCachedData {T : Type} (c : CacheStore T) (key : String) (now : Int) :
    Option T :=
  match c key with
  | none => none
  | some cacheItem => if cacheItem.expiry < now then none else some cacheItem.data

/-- `clearCache`: resets the store to the empty object. -/
def clearCache {T : Type} : CacheStore T := fun _ => none

/-- `removeCacheItem`: deletes the entry for `key`, keeping all others. -/
def removeCacheItem {T : Type} (c : CacheStore T) (key : String) : CacheStore T :=
  fun k => if k = key then none else c k

/-- The operations the hook returns to its callers. -/
inductive CacheOp (T : Type) where
  | set (key : String) (data : T) (expiryTime : Int)
  | read (key : String)
  | remove (key : String)
  | clear

/-- One step of the hook's interface at time `now`: the resulting store
and the value returned to the caller.  Only `set`, `remove` and `clear`
produce a new store; `read` (the hook's `getCachedData`) leaves it as is. -/
def cacheStep {T : Type} (c : CacheStore T) (now : Int) :
    CacheOp T → CacheStore T × Option T
  | .set k v ttl => (setCachedData c k v now ttl, none)
  | .read k => (c, getCachedData c k now)
  | .remove k => (removeCacheItem c k, none)
  | .clear => (clearCache, none)

/-- C4: `getCachedData` returns the stored value exactly when an entry for
the key exists and `now` is at most its expiry, and `null` otherwise; a
read leaves the store unchanged, so an expired entry stays present until
an explicit remove, clear or overwriting put. -/
theorem getCachedData_iff {T : Type} (c : CacheStore T) (key : String)
    (now : Int) (v : T) :
    (getCachedData c key now = some v ↔
      ∃ it, c key = some it ∧ now ≤ it.expiry ∧ it.data = v) ∧
    (cacheStep c now (.read key)).1 = c ∧
    (cacheStep c now (.read key)).2 = getCachedData c key now := by
  refine ⟨?_, rfl, rfl⟩
  unfold getCachedData
  rcases h : c key with _ | it
  · simp
  · by_cases hexp : it.expiry < now
    · simp only [if_pos hexp]
      constructor
      · intro hc
        simp at hc
      · rintro ⟨it', hit', hle, _⟩
        injection hit' with h2
        subst h2
        omega
    · simp only [if_neg hexp]
      constructor
      · intro hc
        exact ⟨it, rfl, by omega, by simpa using hc⟩
      · rintro ⟨it', hit', _, hv⟩
        injection hit' with h2
        subst h2
        simp [hv]

/-! ## Dashboard fetch (`DataDashboard.tsx` with `services/api.ts`) -/

/-- `DataItem` rows as used by the dashboard and results table.  The
TypeScript fields are `id: number` plus string-typed `employee`,
`position`, `date`, `location`, `status`, and `files`. -/
structure DataItem where
  id : Int
  employee : String
  position : String
  date : String
  location : String
  status : String
  files : Int
deriving DecidableEq

/-- `fetchDataForDateRange` from `services/api.ts`, abstracted over the
HTTP outcome: on a successful response it resolves with the transformed
rows (the per-user mapping to `DataItem`, including the randomised
display date, is abstracted by passing the already-transformed rows); on
a request error its own `catch` logs and resolves with the empty list —
it never rejects on a failed request. -/
def fetchDataForDateRange (httpResult : Except Unit (List DataItem)) :
    List DataItem :=
  match httpResult with
  | .ok rows => rows
  | .error _ => []

/-- The dashboard state touched by `fetchData` in `DataDashboard.tsx`. -/
structure DashState where
  loading : Bool
  error : Option String
  data : List DataItem
  cache : CacheStore (List DataItem)

/-- `fetchData` from `DataDashboard.tsx`, for one invocation at time
`now` with cache key `cacheKey`: clears the error, returns cached rows on
a fresh hit, and otherwise sets the loading flag, awaits
`fetchDataForDateRange` (its settled outcome passed as `apiResult`;
`.error` is the rejection path caught by the dashboard's `catch`), caches
and publishes the rows on fulfilment or sets the generic failure message
on rejection, clearing the loading flag in `finally`. -/
def fetchData (st : DashState) (cacheKey : String) (now : Int)
    (apiResult : Except Unit (List DataItem)) : DashState :=
  let st0 : DashState := { st with error := none }
  match getCachedData st0.cache cacheKey now with
  | some rows => { st0 with data := rows }
  | none =>
    let st1 : DashState := { st0 with loading := true }
    match apiResult with
    | .ok newData =>
        { st1 with
          cache := setCachedData st1.cache cacheKey newData now DEFAULT_CACHE_EXPIRY,
          data := newData,
          loading := false }
    | .error _ =>
        { st1 with
          error := some "Failed to fetch data. Please try again.",
          loading := false }

/-- C6 (amended): when the HTTP request fails, `fetchDataForDateRange`
catches the error itself and resolves with an empty list, so on a cache
miss the dashboard's `catch` never runs: no failure message is set, the
loading indicator is cleared, and the empty result IS stored in the cache
under the request key. -/
theorem fetchData_http_failure (st : DashState) (cacheKey : String) (now : Int)
    (hmiss : getCachedData st.cache cacheKey now = none) :
    (fetchData st cacheKey now (.ok (fetchDataForDateRange (.error ())))).error
        = none ∧
    (fetchData st cacheKey now (.ok (fetchDataForDateRange (.error ())))).loading
        = false ∧
    (fetchData st cacheKey now (.ok (fetchDataForDateRange (.error ())))).data
        = [] ∧
    (fetchData st cacheKey now (.ok (fetchDataForDateRange (.error ())))).cache
        cacheKey = some ⟨[], now, now + DEFAULT_CACHE_EXPIRY⟩ := by
  unfold fetchData fetchDataForDateRange
  simp only [hmiss]
  refine ⟨?_, ?_, ?_, ?_⟩ <;> simp [setCachedData]

/-- Closed instance of `fetchData_http_failure` on the empty cache. -/
theorem fetchData_http_failure_witness :
    getCachedData (DashState.mk false none [] (fun _ => none)).cache "k" 0 = none ∧
    (fetchData (DashState.mk false none [] (fun _ => none)) "k" 0
        (.ok (fetchDataForDateRange (.error ())))).error = none ∧
    (fetchData (DashState.mk false none [] (fun _ => none)) "k" 0
        (.ok (fetchDataForDateRange (.error ())))).cache "k"
      = some ⟨[], 0, 0 + DEFAULT_CACHE_EXPIRY⟩ :=
  ⟨rfl,
    (fetchData_http_failure (DashState.mk false none [] (fun _ => none)) "k" 0 rfl).1,
    (fetchData_http_failure (DashState.mk false none [] (fun _ => none)) "k" 0
      rfl).2.2.2⟩

/-- C6 counterexample: starting from an empty cache, after a failed HTTP
request the dashboard shows no failure message and the cache HAS been
populated for the request key — contradicting "a generic failure message
is produced and no entry is stored in the cache". -/
theorem fetchData_http_failure_counterexample :
    (fetchData (DashState.mk false none [] (fun _ => none)) "k" 0
        (.ok (fetchDataForDateRange (.error ())))).error = none ∧
    ((fetchData (DashState.mk false none [] (fun _ => none)) "k" 0
        (.ok (fetchDataForDateRange (.error ())))).cache "k").isSome = true := by
  constructor
  · rfl
  · simp [fetchData, fetchDataForDateRange, getCachedData, setCachedData]

/-! ## The data table (`EnhancedDataTable.tsx`) -/

/-- The JavaScript runtime type of a cell value, as discriminated by the
source's `typeof value === 'string' / 'number'` checks; `other` stands
for every remaining runtime type, which both the filter and the sort
handle through their fallback branches. -/
inductive Value where
  | str (s : String)
  | num (n : Int)
  | other
deriving DecidableEq

/-- The keys of `DataItem` used by `item[searchColumn]` / `a[orderBy]`. -/
inductive Column where
  | id | employee | position | date | location | status | files
deriving DecidableEq

/-- `item[column]` together with its runtime type. -/
def getVal (r : DataItem) : Column → Value
  | .id => .num r.id
  | .employee => .str r.employee
  | .position => .str r.position
  | .date => .str r.date
  | .location => .str r.location
  | .status => .str r.status
  | .files => .num r.files

/-- JavaScript `String(value)` for the values occurring in a `DataItem`
(`.other` never occurs as a field value, so its coercion is immaterial
to the rows sorted here). -/
def valueToString : Value → String
  | .str s => s
  | .num n => toString n
  | .other => "[object]"

/-- `a.localeCompare(b)` modelled as the lexicographic three-way string
comparison: locale-aware collation is a total preorder and only the sign
behaviour of the comparator matters to the claims. -/
def localeCompare (a b : String) : Int :=
  if a < b then -1 else if b < a then 1 else 0

/-- `type Order = 'asc' | 'desc'`. -/
inductive SortOrder where
  | asc | desc
deriving DecidableEq

/-- The comparator body of `sortData`: for `asc`, strings compare by
`aValue.localeCompare(bValue)`, numbers by `aValue - bValue`, and any
other combination by `String(aValue).localeCompare(String(bValue))`;
for `desc` the same three branches with `a` and `b` exchanged. -/
def compareRows (order : SortOrder) (orderBy : Column) (a b : DataItem) : Int :=
  let aValue := getVal a orderBy
  let bValue := getVal b orderBy
  match order with
  | .asc =>
    match aValue, bValue with
    | .str x, .str y => localeCompare x y
    | .num x, .num y => x - y
    | _, _ => localeCompare (valueToString aValue) (valueToString bValue)
  | .desc =>
    match aValue, bValue with
    | .str x, .str y => localeCompare y x
    | .num x, .num y => y - x
    | _, _ => localeCompare (valueToString bValue) (valueToString aValue)

/-- The ordering relation induced by the comparator:
`[...data].sort(cmp)` (a stable comparator sort) returns a permutation
ordered by `cmp a b <= 0`; it is modelled by a stable sort with this
relation. -/
def sortRel (order : SortOrder) (orderBy : Column) (a b : DataItem) : Prop :=
  compareRows order orderBy a b ≤ 0

instance (order : SortOrder) (orderBy : Column) :
    DecidableRel (sortRel order orderBy) :=
  fun _ _ => inferInstanceAs (Decidable (_ ≤ _))

/-- `sortData` from `EnhancedDataTable.tsx`. -/
def sortData (order : SortOrder) (orderBy : Column) (data : List DataItem) :
    List DataItem :=
  List.insertionSort (sortRel order orderBy) data

lemma localeCompare_swap (a b : String) : localeCompare b a = -localeCompare a b := by
  unfold localeCompare
  rcases lt_trichotomy a b with h | h | h
  · rw [if_neg (asymm h), if_pos h, if_pos h]
    norm_num
  · subst h
    simp [lt_irrefl]
  · rw [if_pos h, if_neg (asymm h), if_pos h]

lemma localeCompare_eq_zero {a b : String} (h : localeCompare a b = 0) : a = b := by
  unfold localeCompare at h
  by_cases h1 : a < b
  · rw [if_pos h1] at h
    omega
  · by_cases h2 : b < a
    · rw [if_neg h1, if_pos h2] at h
      omega
    · exact le_antisymm (not_lt.mp h2) (not_lt.mp h1)

lemma localeCompare_nonpos (a b : String) : localeCompare a b ≤ 0 ↔ a ≤ b := by
  unfold localeCompare
  by_cases h1 : a < b
  · simp [h1, h1.le]
  · by_cases h2 : b < a
    · simp [h1, h2, not_le.mpr h2]
    · simp [h1, h2, le_antisymm (not_lt.mp h2) (not_lt.mp h1)]

lemma compareRows_desc_neg (orderBy : Column) (a b : DataItem) :
    compareRows .desc orderBy a b = -compareRows .asc orderBy a b := by
  cases ha : getVal a orderBy <;> cases hb : getVal b orderBy <;>
    simp only [compareRows, ha, hb] <;>
    first
      | omega
      | exact localeCompare_swap _ _

lemma compareRows_asc_swap (orderBy : Column) (a b : DataItem) :
    compareRows .asc orderBy b a = -compareRows .asc orderBy a b := by
  cases ha : getVal a orderBy <;> cases hb : getVal b orderBy <;>
    simp only [compareRows, ha, hb] <;>
    first
      | omega
      | exact localeCompare_swap _ _

lemma compareRows_asc_eq_zero (orderBy : Column) (a b : DataItem)
    (h : compareRows .asc orderBy a b = 0) : getVal a orderBy = getVal b orderBy := by
  cases orderBy <;>
    simp only [compareRows, getVal] at h ⊢ <;>
    first
      | rw [localeCompare_eq_zero h]
      | (congr 1; omega)

lemma sortRel_asc_trans (orderBy : Column) :
    ∀ a b c : DataItem, sortRel .asc orderBy a b → sortRel .asc orderBy b c →
      sortRel .asc orderBy a c := by
  intro a b c
  cases orderBy <;>
    simp only [sortRel, compareRows, getVal, localeCompare_nonpos] <;>
    first
      | omega
      | exact fun h1 h2 => le_trans h1 h2

lemma sortRel_asc_total (orderBy : Column) :
    ∀ a b : DataItem, sortRel .asc orderBy a b ∨ sortRel .asc orderBy b a := by
  intro a b
  cases orderBy <;>
    simp only [sortRel, compareRows, getVal, localeCompare_nonpos] <;>
    first
      | omega
      | exact le_total _ _

lemma sortRel_desc_iff (orderBy : Column) (a b : DataItem) :
    sortRel .desc orderBy a b ↔ sortRel .asc orderBy b a := by
  unfold sortRel
  rw [compareRows_desc_neg, compareRows_asc_swap]
  omega

lemma eq_of_perm_of_sorted_on {α : Type} {r : α → α → Prop} :
    ∀ {l₁ l₂ : List α}, l₁.Perm l₂ → l₁.Sorted r → l₂.Sorted r →
      (∀ a ∈ l₁, ∀ b ∈ l₁, r a b → r b a → a = b) → l₁ = l₂ := by
  intro l₁
  induction l₁ with
  | nil =>
    intro l₂ p _ _ _
    exact (List.Perm.eq_nil p.symm).symm
  | cons a t ih =>
    intro l₂ p s₁ s₂ anti
    cases l₂ with
    | nil =>
      have := p.eq_nil
      simp at this
    | cons b t₂ =>
      have hab : a = b := by
        have ha2 : a ∈ b :: t₂ := p.mem_iff.mp (List.mem_cons_self a t)
        have hb1 : b ∈ a :: t := p.mem_iff.mpr (List.mem_cons_self b t₂)
        rcases List.mem_cons.mp ha2 with h | hA
        · exact h
        · rcases List.mem_cons.mp hb1 with h | hB
          · exact h.symm
          · have rba : r b a := (List.sorted_cons.mp s₂).1 a hA
            have rab : r a b := (List.sorted_cons.mp s₁).1 b hB
            exact anti a (List.mem_cons_self a t) b (List.mem_cons_of_mem a hB) rab rba
      subst hab
      have p' : t.Perm t₂ := p.cons_inv
      have ht := ih p' (List.sorted_cons.mp s₁).2 (List.sorted_cons.mp s₂).2
        (fun x hx y hy => anti x (List.mem_cons_of_mem a hx) y (List.mem_cons_of_mem a hy))
      rw [ht]

/-- C7: the `desc` branch of the comparator is the exact negation of the
`asc` branch, and consequently, for row lists whose keys in the sort
column are pairwise non-equal, sorting descending yields exactly the
reverse of sorting ascending. -/
theorem sortData_desc_reverse :
    (∀ (orderBy : Column) (a b : DataItem),
      compareRows .desc orderBy a b = -compareRows .asc orderBy a b) ∧
    (∀ (orderBy : Column) (data : List DataItem),
      data.Pairwise (fun a b => getVal a orderBy ≠ getVal b orderBy) →
      sortData .desc orderBy data = (sortData .asc orderBy data).reverse) := by
  refine ⟨compareRows_desc_neg, ?_⟩
  intro c l hd
  haveI : IsTotal DataItem (sortRel .asc c) := ⟨sortRel_asc_total c⟩
  haveI : IsTrans DataItem (sortRel .asc c) := ⟨fun a b d => sortRel_asc_trans c a b d⟩
  haveI : IsTotal DataItem (sortRel .desc c) :=
    ⟨fun a b => by
      rw [sortRel_desc_iff, sortRel_desc_iff]
      exact (sortRel_asc_total c b a)⟩
  haveI : IsTrans DataItem (sortRel .desc c) :=
    ⟨fun a b d hab hbd => by
      rw [sortRel_desc_iff] at hab hbd ⊢
      exact sortRel_asc_trans c d b a hbd hab⟩
  apply eq_of_perm_of_sorted_on (r := sortRel .desc c)
  · exact (List.perm_insertionSort _ l).trans
      ((List.perm_insertionSort (sortRel .asc c) l).symm.trans
        (List.reverse_perm (sortData .asc c l)).symm)
  · exact List.sorted_insertionSort _ l
  · have hs : (sortData .asc c l).Sorted (sortRel .asc c) :=
      List.sorted_insertionSort _ l
    refine List.pairwise_reverse.mpr ?_
    exact hs.imp (fun {a b} h => (sortRel_desc_iff c b a).mpr h)
  · intro x hx y hy hxy hyx
    have hxl : x ∈ l := (List.perm_insertionSort (sortRel .desc c) l).mem_iff.mp hx
    have hyl : y ∈ l := (List.perm_insertionSort (sortRel .desc c) l).mem_iff.mp hy
    have h1 : compareRows .asc c x y ≤ 0 := (sortRel_desc_iff c y x).mp hyx
    have h2 : compareRows .asc c y x ≤ 0 := (sortRel_desc_iff c x y).mp hxy
    rw [compareRows_asc_swap] at h2
    have h0 : compareRows .asc c x y = 0 := by omega
    have hkey := compareRows_asc_eq_zero c x y h0
    by_contra hne
    have hsymm : Symmetric (fun a b : DataItem => getVal a c ≠ getVal b c) :=
      fun a b h e => h e.symm
    exact (hd.forall hsymm hxl hyl hne) hkey

/-- Closed instance of `sortData_desc_reverse` on two rows with distinct
`employee` keys. -/
theorem sortData_desc_reverse_witness :
    ([⟨1, "Bob", "Dev", "01/02/2024", "NY", "Active", 3⟩,
      ⟨2, "ann", "Ops", "03/02/2024", "LA", "Pending", 5⟩] :
        List DataItem).Pairwise
      (fun a b => getVal a .employee ≠ getVal b .employee) ∧
    sortData .desc .employee
        [⟨1, "Bob", "Dev", "01/02/2024", "NY", "Active", 3⟩,
         ⟨2, "ann", "Ops", "03/02/2024", "LA", "Pending", 5⟩] =
      (sortData .asc .employee
        [⟨1, "Bob", "Dev", "01/02/2024", "NY", "Active", 3⟩,
         ⟨2, "ann", "Ops", "03/02/2024", "LA", "Pending", 5⟩]).reverse :=
  ⟨by decide,
    sortData_desc_reverse.2 .employee
      [⟨1, "Bob", "Dev", "01/02/2024", "NY", "Active", 3⟩,
       ⟨2, "ann", "Ops", "03/02/2024", "LA", "Pending", 5⟩] (by decide)⟩

/-- Helper for `strIncludes`: checks `pat` against every suffix. -/
def includesAux (pat : List Char) : List Char → Bool
  | [] => List.isPrefixOf pat []
  | c :: cs => List.isPrefixOf pat (c :: cs) || includesAux pat cs

/-- JavaScript `s.includes(pat)`: `pat` occurs contiguously in `s`. -/
def strIncludes (s pat : String) : Bool :=
  includesAux pat.data s.data

/-- The predicate of the filter effect in `EnhancedDataTable.tsx`:
string-typed values match by case-insensitive substring
(`value.toLowerCase().includes(searchTerm.toLowerCase())`), number-typed
values by substring of their decimal string form
(`value.toString().includes(searchTerm)`), and every other runtime type
falls through to `return false`. -/
def rowMatches (searchTerm : String) : Value → Bool
  | .str v => strIncludes v.toLower searchTerm.toLower
  | .num v => strIncludes (toString v) searchTerm
  | .other => false

/-- The filter effect in `EnhancedDataTable.tsx`: an empty `searchTerm`
(falsy) publishes `data` unchanged, otherwise `data.filter(...)` with the
type-dispatched predicate on `item[searchColumn]`. -/
def filterRows (searchTerm : String) (searchColumn : Column)
    (data : List DataItem) : List DataItem :=
  if searchTerm = "" then data
  else data.filter fun item => rowMatches searchTerm (getVal item searchColumn)

/-- C9: filtering with an empty search term returns all rows unchanged;
with a non-empty term a row is kept exactly when its search-column value
is a string containing the term case-insensitively or a number whose
decimal string contains the term; values of any other runtime type never
match. -/
theorem filterRows_spec :
    (∀ (searchColumn : Column) (data : List DataItem),
      filterRows "" searchColumn data = data) ∧
    (∀ (searchTerm : String), searchTerm ≠ "" →
      ∀ (searchColumn : Column) (data : List DataItem) (r : DataItem),
        r ∈ filterRows searchTerm searchColumn data ↔
          r ∈ data ∧
            ((∃ s, getVal r searchColumn = .str s ∧
                strIncludes s.toLower searchTerm.toLower = true) ∨
             (∃ n, getVal r searchColumn = .num n ∧
                strIncludes (toString n) searchTerm = true))) ∧
    (∀ searchTerm : String, rowMatches searchTerm .other = false) := by
  refine ⟨fun c data => by simp [filterRows], ?_, fun t => rfl⟩
  intro t ht c data r
  unfold filterRows
  rw [if_neg ht, List.mem_filter]
  apply and_congr_right
  intro _
  cases h : getVal r c <;> simp [rowMatches, h]

/-- Closed instance of `filterRows_spec` with the term `"an"` on the
`employee` column: the row `"ann"` is kept, the row `"Bob"` is not. -/
theorem filterRows_spec_witness :
    ("an" : String) ≠ "" ∧
    ((⟨2, "ann", "Ops", "03/02/2024", "LA", "Pending", 5⟩ : DataItem) ∈
        filterRows "an" .employee
          [⟨1, "Bob", "Dev", "01/02/2024", "NY", "Active", 3⟩,
           ⟨2, "ann", "Ops", "03/02/2024", "LA", "Pending", 5⟩] ↔
      (⟨2, "ann", "Ops", "03/02/2024", "LA", "Pending", 5⟩ : DataItem) ∈
          [⟨1, "Bob", "Dev", "01/02/2024", "NY", "Active", 3⟩,
           ⟨2, "ann", "Ops", "03/02/2024", "LA", "Pending", 5⟩] ∧
        ((∃ s, getVal ⟨2, "ann", "Ops", "03/02/2024", "LA", "Pending", 5⟩ .employee
              = .str s ∧ strIncludes s.toLower ("an" : String).toLower = true) ∨
         (∃ n, getVal ⟨2, "ann", "Ops", "03/02/2024", "LA", "Pending", 5⟩ .employee
              = .num n ∧ strIncludes (toString n) "an" = true))) :=
  ⟨by decide,
    filterRows_spec.2.1 "an" (by decide) .employee
      [⟨1, "Bob", "Dev", "01/02/2024", "NY", "Active", 3⟩,
       ⟨2, "ann", "Ops", "03/02/2024", "LA", "Pending", 5⟩]
      ⟨2, "ann", "Ops", "03/02/2024", "LA", "Pending", 5⟩⟩

end ShieldApp
